import Mathlib

/-!
Shallow embedding of `test/functional/test_framework/stale_reorg_proxy.py`,
the stale-first block replay proxy, together with the parts of its
environment that the verified claims depend on.

Conventions of the embedding:
* 256-bit block hashes and heights are `Nat`.
* `CBlock` keeps exactly the data the proxy reads from a deserialized block:
  its `hashPrevBlock` field and its own hash (`hash_int` in the Python
  helper).  The SHA256d computation itself lives in `test_framework.messages`,
  outside the embedded module, so the computed hash of the serialized block is
  carried as a field of the deserialized value.
* The upstream RPC node is identified with its active chain, a list of blocks
  indexed by height (`getblockcount` is the last index, `getblockhash` is
  list indexing, `getblockheader`/`getblock` are lookups by hash, and a hash
  is "on the active chain with confirmations >= 0" exactly when it occurs in
  the list).  Over this fixed deterministic upstream the `RPCChainView`
  dictionaries are pure memoization, so the protocol-engine embedding reads
  the chain directly; the cache and exception behaviour of
  `RPCChainView.get_active_height` itself is embedded separately and
  explicitly further below, over an upstream whose calls may fail.
* Python exceptions are explicit: a handler that can raise returns the state
  reached so far together with a `Bool` error marker (`true` = an exception
  escaped the handler), and chain lookups that can raise return `Option`.
* `send_without_ping` outputs are collected in order in the `sent` field of
  the proxy state, so that transmitted blocks, headers batches and
  unsolicited inventory announcements are observable.
-/

/-- Modelled from the spec: `MAX_HEADERS_RESULTS` is imported from
`test_framework.messages`, which is not among the sources; the spec fixes the
protocol's maximum headers batch size at 2000. -/
def MAX_HEADERS_RESULTS : Nat := 2000

/-- Modelled from the spec: inventory-type constant from
`test_framework.messages` (not among the sources).  The spec says GetData
inventory is filtered to entries whose type tag denotes a full block; this is
the standard wire value for a block inventory entry. -/
def MSG_BLOCK : Nat := 2

/-- Modelled from the spec: type-mask companion of `MSG_BLOCK` (the low 30
bits of the inventory type select the data kind). -/
def MSG_TYPE_MASK : Nat := 0x3fffffff

/-- Deserialized block, restricted to the fields the proxy reads.
`hash_int` is the block's own hash recomputed from its serialization. -/
structure CBlock where
  hashPrevBlock : Nat
  hash_int : Nat
  deriving DecidableEq

/-- Mirror of the `StaleBlockRecord` dataclass. -/
structure StaleBlockRecord where
  height : Nat
  hash_int : Nat
  prev_hash_int : Nat
  block : CBlock
  path : String
  deriving DecidableEq

/-- Comparison realizing Python's `sort(key=lambda rec: (rec.height, rec.hash_int))`. -/
def stale_key_le (a b : StaleBlockRecord) : Bool :=
  Nat.blt a.height b.height || (a.height == b.height && Nat.ble a.hash_int b.hash_int)

/-- Stable insertion of an element into a sorted list: the element goes in
front of the first entry it compares `le` to, hence before later equal
keys. -/
def insert_sorted {α : Type} (le : α → α → Bool) (a : α) : List α → List α
  | [] => [a]
  | b :: rest => if le a b then a :: b :: rest else b :: insert_sorted le a rest

/-- Stable insertion sort, realizing Python's stable `list.sort`/`sorted`
(structurally recursive so that concrete runs reduce). -/
def sort_by {α : Type} (le : α → α → Bool) : List α → List α
  | [] => []
  | a :: rest => insert_sorted le a (sort_by le rest)

/-- Mirror of `group_stale_blocks_by_parent`: the defaultdict is the function
from a parent hash to its (possibly empty) candidate list, each list sorted
by `(height, hash_int)`.  Python's stable `list.sort` on the appended-in-order
entries is a stable sort of the filtered sub-list. -/
def group_stale_blocks_by_parent (stale_blocks : List StaleBlockRecord) (parent : Nat) :
    List StaleBlockRecord :=
  sort_by stale_key_le (stale_blocks.filter (fun s => s.prev_hash_int == parent))

/-- Mirror of the `stale_by_hash` dict comprehension
(`{stale.hash_int: stale for stale in stale_blocks}`): on duplicate keys the
later entry wins, hence the lookup scans the reversed list. -/
def stale_by_hash (stale_blocks : List StaleBlockRecord) (h : Nat) :
    Option StaleBlockRecord :=
  stale_blocks.reverse.find? (fun s => s.hash_int == h)

/-- Upstream `getblockcount`: the active tip height. -/
def tip_height (chain : List CBlock) : Nat := chain.length - 1

/-- Upstream `getblockhash(height)` (through `RPCChainView.get_block_hash`):
`none` models the RPC error raised for a height beyond the tip. -/
def get_block_hash (chain : List CBlock) (height : Nat) : Option Nat :=
  (chain.get? height).map (·.hash_int)

/-- `RPCChainView.get_active_height` over the fixed, always-reachable
upstream: the height at which the hash sits on the active chain, `none` when
it is not on the active chain (the `getblockheader` failure and the
negative-confirmations case both yield `None` in the Python). -/
def active_height_of (chain : List CBlock) (h : Nat) : Option Nat :=
  chain.findIdx? (fun b => b.hash_int == h)

/-- `RPCChainView.get_block` over the fixed upstream: `none` models the RPC
error raised for a hash the upstream does not know. -/
def block_of_hash (chain : List CBlock) (h : Nat) : Option CBlock :=
  chain.find? (fun b => b.hash_int == h)

/-- Headers-batch element: either the header of the active-chain block at a
height, or an injected stale header (`CBlockHeader(stale.block)`). -/
inductive HeaderOut where
  | active (height : Nat) (b : CBlock)
  | stale (rec : StaleBlockRecord)
  deriving DecidableEq

/-- Outbound messages pushed by `send_without_ping`. -/
inductive OutMsg where
  | headersMsg (hs : List HeaderOut)
  | blockMsg (b : CBlock)
  | invMsg (h : Nat)
  deriving DecidableEq

/-- Kind tag of a served-blocks ledger entry. -/
inductive ServedKind where
  | stale
  | active
  deriving DecidableEq

/-- One `served_blocks` ledger tuple `(kind, height, hash_int)`; the height of
an `active` entry is `Option`al because the Python appends the possibly-`None`
result of `get_active_height` there. -/
structure ServedEntry where
  kind : ServedKind
  height : Option Nat
  hash : Nat
  deriving DecidableEq

/-- Mutable state of a `HistoricalReorgProxy` (the catalog and chain are
fixed at construction and passed separately). -/
structure ProxyState where
  served_stale_blocks : List Nat
  getdata_requests : List Nat
  served_blocks : List ServedEntry
  sent : List OutMsg
  deriving DecidableEq

/-- Proxy state directly after `HistoricalReorgProxy.__init__`. -/
def initState : ProxyState := ⟨[], [], [], []⟩

/-- Mirror of `HistoricalReorgProxy._find_active_fork`: first locator hash
resolving on the active chain, else genesis at height 0; `none` models the
exception raised when even `getblockhash(0)` fails (empty upstream). -/
def find_active_fork (chain : List CBlock) : List Nat → Option (Nat × Nat)
  | [] => (get_block_hash chain 0).map (fun g => (g, 0))
  | h :: rest =>
    match active_height_of chain h with
    | some ht => some (h, ht)
    | none => find_active_fork chain rest

/-- Effective tip height `min(upstream tip height, max_height or +inf)` as
computed in both handlers. -/
def effective_tip (chain : List CBlock) (max_height : Option Nat) : Nat :=
  match max_height with
  | some m => min (tip_height chain) m
  | none => tip_height chain

/-- Mirror of `HistoricalReorgProxy._next_stale_candidate`. -/
def next_stale_candidate (stale_blocks : List StaleBlockRecord) (served : List Nat)
    (max_height : Option Nat) (parent_hash hash_stop : Nat) :
    Option StaleBlockRecord :=
  (group_stale_blocks_by_parent stale_blocks parent_hash).find? fun s =>
    !(served.contains s.hash_int)
      && (match max_height with
          | some m => Nat.ble s.height m
          | none => true)
      && (hash_stop == 0 || hash_stop == s.hash_int)

/-- Body of the `while` loop of `on_getheaders`, building the remaining part
of the batch from `height` with `parent_hash` the hash chosen at the previous
step and `count` the number of headers already accumulated.  The loop adds one
to `height` per iteration and exits once `height > tip`, so running it on
`fuel >= tip + 1 - height` reproduces it exactly; `none` models an exception
from `get_block_hash`. -/
def headers_loop (chain : List CBlock) (stale_blocks : List StaleBlockRecord)
    (served : List Nat) (max_height : Option Nat) (hash_stop tip : Nat) :
    Nat → Nat → Nat → Nat → Option (List HeaderOut)
  | 0, _, _, _ => some []
  | fuel + 1, height, parent_hash, count =>
    if height ≤ tip ∧ count < MAX_HEADERS_RESULTS then
      match next_stale_candidate stale_blocks served max_height parent_hash hash_stop with
      | some s => some [HeaderOut.stale s]
      | none =>
        match chain.get? height with
        | none => none
        | some b =>
          if hash_stop ≠ 0 ∧ b.hash_int == hash_stop then
            some [HeaderOut.active height b]
          else
            match headers_loop chain stale_blocks served max_height hash_stop tip
                fuel (height + 1) b.hash_int (count + 1) with
            | none => none
            | some rest => some (HeaderOut.active height b :: rest)
    else some []

/-- Mirror of `HistoricalReorgProxy.on_getheaders`: the payload of the
`msg_headers` reply (`none` models an escaping upstream exception).  Only the
`served` part of the proxy state is read by this handler. -/
def on_getheaders (chain : List CBlock) (stale_blocks : List StaleBlockRecord)
    (max_height : Option Nat) (served : List Nat)
    (locator_hashes : List Nat) (hash_stop : Nat) : Option (List HeaderOut) :=
  match find_active_fork chain locator_hashes with
  | none => none
  | some (fork_hash, fork_height) =>
    let tip := effective_tip chain max_height
    if fork_height + 1 > tip then some []
    else
      headers_loop chain stale_blocks served max_height hash_stop tip
        (tip - fork_height) (fork_height + 1) fork_hash 0

/-- Mirror of `HistoricalReorgProxy.on_getdata`, processing the inventory
entries in order.  The returned flag is `true` when an upstream exception
escaped the handler, in which case the remaining entries are not processed
(the state reached so far is kept, as the Python mutations persist). -/
def on_getdata (chain : List CBlock) (stale_blocks : List StaleBlockRecord)
    (max_height : Option Nat) (st : ProxyState) :
    List (Nat × Nat) → ProxyState × Bool
  | [] => (st, false)
  | (inv_type, inv_hash) :: rest =>
    let st1 : ProxyState := { st with getdata_requests := st.getdata_requests ++ [inv_hash] }
    if (inv_type &&& MSG_TYPE_MASK) != MSG_BLOCK then
      on_getdata chain stale_blocks max_height st1 rest
    else
      match stale_by_hash stale_blocks inv_hash with
      | some s =>
        let st2 : ProxyState := { st1 with
          served_stale_blocks := st1.served_stale_blocks.insert s.hash_int
          served_blocks := st1.served_blocks ++ [⟨ServedKind.stale, some s.height, s.hash_int⟩]
          sent := st1.sent ++ [OutMsg.blockMsg s.block] }
        let tip := effective_tip chain max_height
        if s.height + 1 ≤ tip then
          match get_block_hash chain (s.height + 1) with
          | some nh =>
            on_getdata chain stale_blocks max_height
              { st2 with sent := st2.sent ++ [OutMsg.invMsg nh] } rest
          | none => (st2, true)
        else
          on_getdata chain stale_blocks max_height st2 rest
      | none =>
        let ht := active_height_of chain inv_hash
        let st2 : ProxyState := { st1 with
          served_blocks := st1.served_blocks ++ [⟨ServedKind.active, ht, inv_hash⟩] }
        match block_of_hash chain inv_hash with
        | some b =>
          on_getdata chain stale_blocks max_height
            { st2 with sent := st2.sent ++ [OutMsg.blockMsg b] } rest
        | none => (st2, true)

/-- Inbound messages driving the proxy. -/
inductive InMsg where
  | getheaders (locator_hashes : List Nat) (hash_stop : Nat)
  | getdata (invs : List (Nat × Nat))
  deriving DecidableEq

/-- Dispatch of one inbound message to its handler. -/
def step_msg (chain : List CBlock) (stale_blocks : List StaleBlockRecord)
    (max_height : Option Nat) (st : ProxyState) : InMsg → ProxyState × Bool
  | InMsg.getheaders locator hashStop =>
    match on_getheaders chain stale_blocks max_height st.served_stale_blocks locator hashStop with
    | none => (st, true)
    | some hs => ({ st with sent := st.sent ++ [OutMsg.headersMsg hs] }, false)
  | InMsg.getdata invs => on_getdata chain stale_blocks max_height st invs

/-- Sequential processing of inbound messages, stopping at the first message
whose handler raised. -/
def run_msgs (chain : List CBlock) (stale_blocks : List StaleBlockRecord)
    (max_height : Option Nat) (st : ProxyState) : List InMsg → ProxyState × Bool
  | [] => (st, false)
  | m :: rest =>
    match step_msg chain stale_blocks max_height st m with
    | (st', true) => (st', true)
    | (st', false) => run_msgs chain stale_blocks max_height st' rest

/-- Value of a decimal digit character. -/
def decDigitVal (c : Char) : Nat := c.toNat - 48

/-- Value of a lowercase hexadecimal digit character. -/
def hexDigitVal (c : Char) : Nat :=
  if c.isDigit then c.toNat - 48 else c.toNat - 87

/-- Recognizer for `[0-9a-f]`. -/
def isHexLower (c : Char) : Bool :=
  c.isDigit || (Nat.ble 97 c.toNat && Nat.ble c.toNat 102)

/-- Numeric value of a decimal digit string. -/
def decDigitsToNat (cs : List Char) : Nat :=
  cs.foldl (fun acc c => acc * 10 + decDigitVal c) 0

/-- Numeric value of a hexadecimal digit string (`hash_hex_to_int` applied to
the filename-encoded hash). -/
def hexToNat (cs : List Char) : Nat :=
  cs.foldl (fun acc c => acc * 16 + hexDigitVal c) 0

/-- Mirror of `STALE_BLOCK_FILE_RE.fullmatch` on a file name: the regex
`^(?P<height>\d+)-(?P<hash>[0-9a-f]{64})\.bin$`, returning the decimal height
and the hash value encoded in the name.  The greedy `\d+` takes the maximal
digit run, which must be nonempty and be followed by a dash, exactly 64
lowercase hex digits and the literal suffix `.bin`. -/
def stale_block_file_match (name : String) : Option (Nat × Nat) :=
  let cs := name.toList
  let digits := cs.takeWhile Char.isDigit
  let rest := cs.dropWhile Char.isDigit
  if digits.isEmpty then none
  else
    match rest with
    | '-' :: rest2 =>
      let hashPart := rest2.take 64
      let nameEnd := rest2.drop 64
      if hashPart.length == 64 && hashPart.all isHexLower
          && nameEnd == ['.', 'b', 'i', 'n'] then
        some (decDigitsToNat digits, hexToNat hashPart)
      else none
    | _ => none

/-- One file of a stale-blocks directory: its name and the block its content
deserializes to (`CBlock.deserialize` of the byte content). -/
structure StaleFile where
  name : String
  block : CBlock
  deriving DecidableEq

/-- Comparison realizing the name order in which `sorted(Path.glob("*.bin"))`
yields the directory's files. -/
def file_name_le (a b : StaleFile) : Bool :=
  decide (a.name ≤ b.name)

/-- Iteration body of `load_stale_blocks_from_dir` over the name-sorted file
list: skip names the pattern does not match, raise (`Except.error`) on a
mismatch between the recomputed block hash and the filename-encoded hash,
otherwise collect the record. -/
def load_stale_blocks_loop : List StaleFile → Except String (List StaleBlockRecord)
  | [] => Except.ok []
  | f :: rest =>
    match stale_block_file_match f.name with
    | none => load_stale_blocks_loop rest
    | some (height, expected_hash) =>
      if f.block.hash_int != expected_hash then
        Except.error ("Stale block hash mismatch for " ++ f.name)
      else
        match load_stale_blocks_loop rest with
        | Except.error e => Except.error e
        | Except.ok recs =>
          Except.ok (⟨height, f.block.hash_int, f.block.hashPrevBlock, f.block, f.name⟩ :: recs)

/-- Mirror of `load_stale_blocks_from_dir`: the directory is the list of its
`*.bin` files, iterated in sorted name order; the collected records are
finally sorted by `(height, hash_int)`. -/
def load_stale_blocks_from_dir (files : List StaleFile) :
    Except String (List StaleBlockRecord) :=
  (load_stale_blocks_loop (sort_by file_name_le files)).map
    (fun recs => sort_by stale_key_le recs)

/-- Failure of an upstream RPC call: the upstream answered that it does not
know the queried object, or the upstream could not be reached at all. -/
inductive RpcError where
  | notFound
  | unreachable
  deriving DecidableEq

/-- Fields of a `getblockheader` RPC reply read by the chain view. -/
structure RpcHeaderInfo where
  height : Nat
  confirmations : Int
  deriving DecidableEq

/-- Live upstream RPC connection, restricted to the calls exercised by the
embedded `RPCChainView` operations below; each call can fail. -/
structure RpcUpstream where
  getblockheader : Nat → Except RpcError RpcHeaderInfo
  getblock : Nat → Except RpcError CBlock

/-- Cache dictionaries of an `RPCChainView`, restricted to the two caches the
embedded operations use (association lists, newest entry first). -/
structure RPCChainViewState where
  active_height_by_hash : List (Nat × Option Nat)
  block_by_hash : List (Nat × CBlock)
  deriving DecidableEq

/-- Dictionary lookup in a cache. -/
def lookup_cache {α : Type} (cache : List (Nat × α)) (k : Nat) : Option α :=
  (cache.find? (fun e => e.1 == k)).map (·.2)

/-- Chain view state directly after `RPCChainView.__init__`. -/
def emptyView : RPCChainViewState := ⟨[], []⟩

/-- Mirror of `RPCChainView.get_active_height` over a live upstream: answer
from the cache when present; otherwise call `getblockheader`, turning any
exception into a cached `None`, and otherwise caching the header height when
its confirmations are nonnegative and `None` when they are negative. -/
def get_active_height (rpc : RpcUpstream) (st : RPCChainViewState) (h : Nat) :
    Option Nat × RPCChainViewState :=
  match lookup_cache st.active_height_by_hash h with
  | some v => (v, st)
  | none =>
    match rpc.getblockheader h with
    | Except.error _ =>
      (none, { st with active_height_by_hash := (h, none) :: st.active_height_by_hash })
    | Except.ok info =>
      let ht := if info.confirmations ≥ 0 then some info.height else none
      (ht, { st with active_height_by_hash := (h, ht) :: st.active_height_by_hash })

/-- Mirror of `RPCChainView.get_block` over a live upstream: answer from the
cache when present; otherwise call `getblock`, caching a successful reply and
letting an exception propagate (nothing is cached for it). -/
def get_block_view (rpc : RpcUpstream) (st : RPCChainViewState) (h : Nat) :
    Except RpcError CBlock × RPCChainViewState :=
  match lookup_cache st.block_by_hash h with
  | some b => (Except.ok b, st)
  | none =>
    match rpc.getblock h with
    | Except.error e => (Except.error e, st)
    | Except.ok b => (Except.ok b, { st with block_by_hash := (h, b) :: st.block_by_hash })

/-- Chain height a headers-batch element came from: the loop's `height`
variable for an active header, the record's height for an injected stale
header. -/
def headerHeight : HeaderOut → Nat
  | HeaderOut.active h _ => h
  | HeaderOut.stale s => s.height

/-- Hash of the block a headers-batch element describes. -/
def out_hash : HeaderOut → Nat
  | HeaderOut.active _ b => b.hash_int
  | HeaderOut.stale s => s.hash_int

/-- Hash chosen at the last step of a headers walk that already emitted the
given elements, starting from `parent` (the fork hash). -/
def last_hash : List HeaderOut → Nat → Nat
  | [], parent => parent
  | x :: rest, _ => last_hash rest (out_hash x)

/-- Ledger entries one inventory entry contributes when `on_getdata`
processes it (independent of the proxy state). -/
def gd_entry (chain : List CBlock) (stale_blocks : List StaleBlockRecord)
    (iv : Nat × Nat) : List ServedEntry :=
  if (iv.1 &&& MSG_TYPE_MASK) != MSG_BLOCK then []
  else
    match stale_by_hash stale_blocks iv.2 with
    | some s => [⟨ServedKind.stale, some s.height, s.hash_int⟩]
    | none => [⟨ServedKind.active, active_height_of chain iv.2, iv.2⟩]

/-- Ledger entries contributed by a list of inventory entries, in order. -/
def gd_stream_entries (chain : List CBlock) (stale_blocks : List StaleBlockRecord) :
    List (Nat × Nat) → List ServedEntry
  | [] => []
  | iv :: rest => gd_entry chain stale_blocks iv ++ gd_stream_entries chain stale_blocks rest

/-- Concatenated inventory stream of a message sequence, in processing
order. -/
def inv_stream : List InMsg → List (Nat × Nat)
  | [] => []
  | InMsg.getheaders _ _ :: rest => inv_stream rest
  | InMsg.getdata invs :: rest => invs ++ inv_stream rest

/-- Number of block-type GetData inventory entries for a given hash across a
message sequence. -/
def req_count (h : Nat) (msgs : List InMsg) : Nat :=
  (inv_stream msgs).countP (fun iv => (iv.1 &&& MSG_TYPE_MASK) == MSG_BLOCK && iv.2 == h)

/-- Concrete genesis block used by the witness scenarios. -/
def gEx : CBlock := ⟨0, 100⟩

/-- Concrete active block at height 1 used by the witness scenarios. -/
def b1Ex : CBlock := ⟨100, 101⟩

/-- Concrete active block at height 2 used by the witness scenarios. -/
def b2Ex : CBlock := ⟨101, 102⟩

/-- Concrete two-block active chain. -/
def chainEx : List CBlock := [gEx, b1Ex]

/-- Concrete three-block active chain. -/
def chain3Ex : List CBlock := [gEx, b1Ex, b2Ex]

/-- Concrete stale record at height 1 forking off genesis. -/
def s1Ex : StaleBlockRecord := ⟨1, 201, 100, ⟨100, 201⟩, "1-s.bin"⟩

/-- Concrete stale record at height 5, above the witness chains' tips. -/
def s5Ex : StaleBlockRecord := ⟨5, 205, 100, ⟨100, 205⟩, "5-s.bin"⟩

/-- Concrete catalog file whose content hash matches its name. -/
def fGoodEx : StaleFile :=
  ⟨"1-00000000000000000000000000000000000000000000000000000000000000ff.bin", ⟨0, 255⟩⟩

/-- Concrete catalog file whose content hash contradicts its name (the name
encodes `0xaa` but the content hashes to `7`). -/
def fBadEx : StaleFile :=
  ⟨"2-00000000000000000000000000000000000000000000000000000000000000aa.bin", ⟨0, 7⟩⟩

/-- Concrete directory entry whose name does not match the catalog pattern. -/
def fSkipEx : StaleFile := ⟨"readme.txt", ⟨0, 9⟩⟩

/-- Upstream connection that cannot be reached: every call fails with
`unreachable`. -/
def rpcDownEx : RpcUpstream :=
  ⟨fun _ => Except.error RpcError.unreachable, fun _ => Except.error RpcError.unreachable⟩

/-- Healthy upstream connection that knows every queried header at height 7
with one confirmation. -/
def rpcUpEx : RpcUpstream :=
  ⟨fun _ => Except.ok ⟨7, 1⟩, fun _ => Except.error RpcError.notFound⟩

lemma mem_insert_sorted {α : Type} {le : α → α → Bool} {a x : α} :
    ∀ l : List α, (x ∈ insert_sorted le a l ↔ x = a ∨ x ∈ l) := by
  intro l
  induction l with
  | nil => simp [insert_sorted]
  | cons b rest ih =>
    simp only [insert_sorted]
    split
    · simp
    · simp only [List.mem_cons, ih]
      tauto

lemma mem_sort_by {α : Type} {le : α → α → Bool} {x : α} :
    ∀ l : List α, (x ∈ sort_by le l ↔ x ∈ l) := by
  intro l
  induction l with
  | nil => simp [sort_by]
  | cons a rest ih =>
    simp only [sort_by, mem_insert_sorted, List.mem_cons, ih]

lemma stale_by_hash_spec {stale_blocks : List StaleBlockRecord} {h : Nat}
    {s : StaleBlockRecord} (hs : stale_by_hash stale_blocks h = some s) :
    s ∈ stale_blocks ∧ s.hash_int = h := by
  unfold stale_by_hash at hs
  refine ⟨List.mem_reverse.mp (List.mem_of_find?_eq_some hs), ?_⟩
  have hp := List.find?_some hs
  simpa using hp

lemma block_of_hash_spec {chain : List CBlock} {h : Nat} {b : CBlock}
    (hb : block_of_hash chain h = some b) :
    b ∈ chain ∧ b.hash_int = h := by
  unfold block_of_hash at hb
  refine ⟨List.mem_of_find?_eq_some hb, ?_⟩
  have hp := List.find?_some hb
  simpa using hp

lemma active_height_of_eq_none {chain : List CBlock} {h : Nat}
    (hh : ∀ b ∈ chain, b.hash_int ≠ h) :
    active_height_of chain h = none := by
  unfold active_height_of
  rw [List.findIdx?_eq_none_iff]
  intro b hb
  simpa using hh b hb

lemma block_of_hash_eq_none {chain : List CBlock} {h : Nat}
    (hh : ∀ b ∈ chain, b.hash_int ≠ h) :
    block_of_hash chain h = none := by
  unfold block_of_hash
  rw [List.find?_eq_none]
  intro b hb
  simpa using hh b hb

lemma next_stale_candidate_spec {stale_blocks : List StaleBlockRecord}
    {served : List Nat} {max_height : Option Nat} {parent_hash hash_stop : Nat}
    {s : StaleBlockRecord}
    (hc : next_stale_candidate stale_blocks served max_height parent_hash hash_stop = some s) :
    s ∈ stale_blocks ∧ s.prev_hash_int = parent_hash
      ∧ served.contains s.hash_int = false
      ∧ (∀ m, max_height = some m → s.height ≤ m)
      ∧ (hash_stop = 0 ∨ hash_stop = s.hash_int) := by
  unfold next_stale_candidate group_stale_blocks_by_parent at hc
  have hmem := List.mem_of_find?_eq_some hc
  rw [mem_sort_by, List.mem_filter] at hmem
  have hpred := List.find?_some hc
  simp only [Bool.and_eq_true, Bool.not_eq_true', Bool.or_eq_true, beq_iff_eq] at hpred
  refine ⟨hmem.1, by simpa using hmem.2, hpred.1.1, ?_, hpred.2⟩
  intro m hm
  subst hm
  have := hpred.1.2
  simpa [Nat.ble_eq] using this

lemma lookup_cache_cons {α : Type} (c : List (Nat × α)) (k : Nat) (v : α) :
    lookup_cache ((k, v) :: c) k = some v := by
  simp [lookup_cache]

lemma headers_loop_height_le {chain : List CBlock} {stale_blocks : List StaleBlockRecord}
    {served : List Nat} {hash_stop tip M : Nat} (htip : tip ≤ M) :
    ∀ fuel height parent count hs,
    headers_loop chain stale_blocks served (some M) hash_stop tip fuel height parent count
      = some hs →
    ∀ x ∈ hs, headerHeight x ≤ M := by
  intro fuel
  induction fuel with
  | zero =>
    intro height parent count hs hrun x hx
    simp only [headers_loop] at hrun
    cases hrun
    simp at hx
  | succ fuel ih =>
    intro height parent count hs hrun x hx
    simp only [headers_loop] at hrun
    split at hrun
    · rename_i hguard
      split at hrun
      · rename_i s hcand
        cases hrun
        rw [List.mem_singleton] at hx
        subst hx
        exact (next_stale_candidate_spec hcand).2.2.2.1 M rfl
      · rename_i hcand
        split at hrun
        · cases hrun
        · rename_i b hget
          split at hrun
          · cases hrun
            rw [List.mem_singleton] at hx
            subst hx
            exact le_trans hguard.1 htip
          · split at hrun
            · cases hrun
            · rename_i rest hrec
              injection hrun with h_eq
              subst h_eq
              rw [List.mem_cons] at hx
              rcases hx with hx | hx
              · subst hx
                exact le_trans hguard.1 htip
              · exact ih (height + 1) b.hash_int (count + 1) rest hrec x hx
    · cases hrun
      simp at hx

lemma headers_loop_stale_mem {chain : List CBlock} {stale_blocks : List StaleBlockRecord}
    {served : List Nat} {max_height : Option Nat} {hash_stop tip : Nat} :
    ∀ fuel height parent count hs s,
    headers_loop chain stale_blocks served max_height hash_stop tip fuel height parent count
      = some hs →
    HeaderOut.stale s ∈ hs →
    ∃ pre, hs = pre ++ [HeaderOut.stale s]
      ∧ (∀ x ∈ pre, ∃ hh b, x = HeaderOut.active hh b)
      ∧ next_stale_candidate stale_blocks served max_height (last_hash pre parent) hash_stop
          = some s := by
  intro fuel
  induction fuel with
  | zero =>
    intro height parent count hs s hrun hx
    simp only [headers_loop] at hrun
    cases hrun
    simp at hx
  | succ fuel ih =>
    intro height parent count hs s hrun hx
    simp only [headers_loop] at hrun
    split at hrun
    · split at hrun
      · rename_i s' hcand
        injection hrun with h_eq
        subst h_eq
        rw [List.mem_singleton] at hx
        injection hx with h_eq2
        subst h_eq2
        exact ⟨[], rfl, by simp, hcand⟩
      · rename_i hcand
        split at hrun
        · cases hrun
        · rename_i b hget
          split at hrun
          · injection hrun with h_eq
            subst h_eq
            rw [List.mem_singleton] at hx
            cases hx
          · split at hrun
            · cases hrun
            · rename_i rest hrec
              injection hrun with h_eq
              subst h_eq
              rw [List.mem_cons] at hx
              rcases hx with hx | hx
              · cases hx
              · obtain ⟨pre, hrest, hact, hcand2⟩ :=
                  ih (height + 1) b.hash_int (count + 1) rest s hrec hx
                refine ⟨HeaderOut.active height b :: pre, ?_, ?_, ?_⟩
                · rw [hrest]
                  rfl
                · intro x hxp
                  rw [List.mem_cons] at hxp
                  rcases hxp with hxp | hxp
                  · exact ⟨height, b, hxp⟩
                  · exact hact x hxp
                · simpa [last_hash, out_hash] using hcand2
    · cases hrun
      simp at hx

lemma gd_stream_entries_append (chain : List CBlock) (stale_blocks : List StaleBlockRecord)
    (l1 l2 : List (Nat × Nat)) :
    gd_stream_entries chain stale_blocks (l1 ++ l2)
      = gd_stream_entries chain stale_blocks l1 ++ gd_stream_entries chain stale_blocks l2 := by
  induction l1 with
  | nil => simp [gd_stream_entries]
  | cons iv rest ih => simp [gd_stream_entries, ih]

lemma on_getdata_served_eq {chain : List CBlock} {stale_blocks : List StaleBlockRecord}
    {max_height : Option Nat} :
    ∀ invs st,
    (on_getdata chain stale_blocks max_height st invs).2 = false →
    (on_getdata chain stale_blocks max_height st invs).1.served_blocks
      = st.served_blocks ++ gd_stream_entries chain stale_blocks invs := by
  intro invs
  induction invs with
  | nil =>
    intro st _
    simp [on_getdata, gd_stream_entries]
  | cons iv rest ih =>
    intro st herr
    obtain ⟨t, h⟩ := iv
    simp only [on_getdata] at herr ⊢
    by_cases htype : ((t &&& MSG_TYPE_MASK) != MSG_BLOCK) = true
    · rw [if_pos htype] at herr ⊢
      rw [ih _ herr]
      simp [gd_stream_entries, gd_entry, htype]
    · rw [if_neg htype] at herr ⊢
      cases hsb : stale_by_hash stale_blocks h with
      | some s =>
        rw [hsb] at herr
        dsimp only at herr ⊢
        by_cases htip : s.height + 1 ≤ effective_tip chain max_height
        · rw [if_pos htip] at herr ⊢
          cases hgbh : get_block_hash chain (s.height + 1) with
          | some nh =>
            rw [hgbh] at herr
            dsimp only at herr ⊢
            rw [ih _ herr]
            simp [gd_stream_entries, gd_entry, htype, hsb]
          | none =>
            rw [hgbh] at herr
            dsimp only at herr
            cases herr
        · rw [if_neg htip] at herr ⊢
          rw [ih _ herr]
          simp [gd_stream_entries, gd_entry, htype, hsb]
      | none =>
        rw [hsb] at herr
        dsimp only at herr ⊢
        cases hbl : block_of_hash chain h with
        | some b =>
          rw [hbl] at herr
          dsimp only at herr ⊢
          rw [ih _ herr]
          simp [gd_stream_entries, gd_entry, htype, hsb]
        | none =>
          rw [hbl] at herr
          dsimp only at herr
          cases herr

lemma on_getdata_stale_count_le {chain : List CBlock} {stale_blocks : List StaleBlockRecord}
    {max_height : Option Nat} (Rh : Nat) :
    ∀ invs st,
    ((on_getdata chain stale_blocks max_height st invs).1.served_blocks.countP
        (fun e => e.kind == ServedKind.stale && e.hash == Rh))
      ≤ st.served_blocks.countP (fun e => e.kind == ServedKind.stale && e.hash == Rh)
        + invs.countP (fun iv => (iv.1 &&& MSG_TYPE_MASK) == MSG_BLOCK && iv.2 == Rh) := by
  intro invs
  induction invs with
  | nil =>
    intro st
    simp [on_getdata]
  | cons iv rest ih =>
    intro st
    obtain ⟨t, h⟩ := iv
    simp only [on_getdata]
    by_cases htype : ((t &&& MSG_TYPE_MASK) != MSG_BLOCK) = true
    · rw [if_pos htype]
      refine le_trans (ih _) ?_
      simp only [List.countP_cons]
      omega
    · rw [if_neg htype]
      have htype2 : ((t &&& MSG_TYPE_MASK) == MSG_BLOCK) = true := by
        simpa [bne] using htype
      cases hsb : stale_by_hash stale_blocks h with
      | some s =>
        have hs_hash : s.hash_int = h := (stale_by_hash_spec hsb).2
        dsimp only
        by_cases htip : s.height + 1 ≤ effective_tip chain max_height
        · rw [if_pos htip]
          cases hgbh : get_block_hash chain (s.height + 1) with
          | some nh =>
            dsimp only
            refine le_trans (ih _) ?_
            simp only [List.countP_cons, List.countP_append]
            simp only [List.countP_cons, List.countP_nil, htype2, hs_hash]
            simp only [Bool.true_and, beq_self_eq_true, decide_True]
            split <;> simp <;> omega
          | none =>
            dsimp only
            simp only [List.countP_cons, List.countP_append]
            simp only [List.countP_cons, List.countP_nil, htype2, hs_hash]
            simp only [Bool.true_and, beq_self_eq_true, decide_True]
            split <;> simp <;> omega
        · rw [if_neg htip]
          refine le_trans (ih _) ?_
          simp only [List.countP_cons, List.countP_append]
          simp only [List.countP_cons, List.countP_nil, htype2, hs_hash]
          simp only [Bool.true_and, beq_self_eq_true, decide_True]
          split <;> simp <;> omega
      | none =>
        dsimp only
        cases hbl : block_of_hash chain h with
        | some b =>
          dsimp only
          refine le_trans (ih _) ?_
          simp only [List.countP_cons, List.countP_append]
          simp
        | none =>
          dsimp only
          simp only [List.countP_cons, List.countP_append]
          simp

lemma on_getdata_block_send_count_le {chain : List CBlock}
    {stale_blocks : List StaleBlockRecord} {max_height : Option Nat}
    {R : StaleBlockRecord}
    (hchain : ∀ b ∈ chain, b ≠ R.block)
    (huniq : ∀ s ∈ stale_blocks, s.block = R.block → s.hash_int = R.hash_int) :
    ∀ invs st,
    ((on_getdata chain stale_blocks max_height st invs).1.sent.countP
        (fun m => m == OutMsg.blockMsg R.block))
      ≤ st.sent.countP (fun m => m == OutMsg.blockMsg R.block)
        + invs.countP
            (fun iv => (iv.1 &&& MSG_TYPE_MASK) == MSG_BLOCK && iv.2 == R.hash_int) := by
  intro invs
  induction invs with
  | nil =>
    intro st
    simp [on_getdata]
  | cons iv rest ih =>
    intro st
    obtain ⟨t, h⟩ := iv
    simp only [on_getdata]
    by_cases htype : ((t &&& MSG_TYPE_MASK) != MSG_BLOCK) = true
    · rw [if_pos htype]
      refine le_trans (ih _) ?_
      simp only [List.countP_cons]
      omega
    · rw [if_neg htype]
      have htype2 : ((t &&& MSG_TYPE_MASK) == MSG_BLOCK) = true := by
        simpa [bne] using htype
      cases hsb : stale_by_hash stale_blocks h with
      | some s =>
        have hs_mem := (stale_by_hash_spec hsb).1
        have hs_hash : s.hash_int = h := (stale_by_hash_spec hsb).2
        have hcase : (OutMsg.blockMsg s.block == OutMsg.blockMsg R.block) = true →
            (h == R.hash_int) = true := by
          intro hb
          rw [beq_iff_eq] at hb
          have hbr : s.block = R.block := by
            injection hb
          rw [beq_iff_eq, ← hs_hash]
          exact huniq s hs_mem hbr
        dsimp only
        by_cases htip : s.height + 1 ≤ effective_tip chain max_height
        · rw [if_pos htip]
          cases hgbh : get_block_hash chain (s.height + 1) with
          | some nh =>
            dsimp only
            refine le_trans (ih _) ?_
            simp only [List.countP_cons, List.countP_append, List.countP_nil, htype2,
              Bool.true_and]
            cases hpb : (OutMsg.blockMsg s.block == OutMsg.blockMsg R.block) with
            | true =>
              simp [hpb, hcase hpb] <;> omega
            | false =>
              simp [hpb] <;> (split <;> omega)
          | none =>
            dsimp only
            simp only [List.countP_cons, List.countP_append, List.countP_nil, htype2,
              Bool.true_and]
            cases hpb : (OutMsg.blockMsg s.block == OutMsg.blockMsg R.block) with
            | true =>
              simp [hpb, hcase hpb] <;> omega
            | false =>
              simp [hpb] <;> (split <;> omega)
        · rw [if_neg htip]
          refine le_trans (ih _) ?_
          simp only [List.countP_cons, List.countP_append, List.countP_nil, htype2,
            Bool.true_and]
          cases hpb : (OutMsg.blockMsg s.block == OutMsg.blockMsg R.block) with
          | true =>
            simp [hpb, hcase hpb] <;> omega
          | false =>
            simp [hpb] <;> (split <;> omega)
      | none =>
        dsimp only
        cases hbl : block_of_hash chain h with
        | some b =>
          have hb_ne : b ≠ R.block := hchain b (block_of_hash_spec hbl).1
          dsimp only
          refine le_trans (ih _) ?_
          simp only [List.countP_cons, List.countP_append, List.countP_nil]
          simp [hb_ne] <;> omega
        | none =>
          dsimp only
          simp only [List.countP_cons]
          omega

lemma run_msgs_stale_count_le {chain : List CBlock} {stale_blocks : List StaleBlockRecord}
    {max_height : Option Nat} (Rh : Nat) :
    ∀ msgs st,
    ((run_msgs chain stale_blocks max_height st msgs).1.served_blocks.countP
        (fun e => e.kind == ServedKind.stale && e.hash == Rh))
      ≤ st.served_blocks.countP (fun e => e.kind == ServedKind.stale && e.hash == Rh)
        + req_count Rh msgs := by
  intro msgs
  induction msgs with
  | nil =>
    intro st
    simp [run_msgs]
  | cons m rest ih =>
    intro st
    cases m with
    | getheaders locator hashStop =>
      have hreq : req_count Rh (InMsg.getheaders locator hashStop :: rest)
          = req_count Rh rest := by
        simp [req_count, inv_stream]
      rw [hreq]
      simp only [run_msgs, step_msg]
      cases hoh : on_getheaders chain stale_blocks max_height st.served_stale_blocks
          locator hashStop with
      | none =>
        dsimp only
        omega
      | some hs =>
        dsimp only
        refine le_trans (ih _) ?_
        simp
    | getdata invs =>
      have hreq : req_count Rh (InMsg.getdata invs :: rest)
          = invs.countP (fun iv => (iv.1 &&& MSG_TYPE_MASK) == MSG_BLOCK && iv.2 == Rh)
            + req_count Rh rest := by
        simp [req_count, inv_stream, List.countP_append]
      rw [hreq]
      have hcount := @on_getdata_stale_count_le chain stale_blocks max_height Rh invs st
      simp only [run_msgs, step_msg]
      cases hgd : on_getdata chain stale_blocks max_height st invs with
      | mk st' e =>
        rw [hgd] at hcount
        dsimp only at hcount
        cases e with
        | true =>
          dsimp only
          omega
        | false =>
          dsimp only
          refine le_trans (ih st') ?_
          omega

lemma run_msgs_block_send_count_le {chain : List CBlock}
    {stale_blocks : List StaleBlockRecord} {max_height : Option Nat}
    {R : StaleBlockRecord}
    (hchain : ∀ b ∈ chain, b ≠ R.block)
    (huniq : ∀ s ∈ stale_blocks, s.block = R.block → s.hash_int = R.hash_int) :
    ∀ msgs st,
    ((run_msgs chain stale_blocks max_height st msgs).1.sent.countP
        (fun m => m == OutMsg.blockMsg R.block))
      ≤ st.sent.countP (fun m => m == OutMsg.blockMsg R.block)
        + req_count R.hash_int msgs := by
  intro msgs
  induction msgs with
  | nil =>
    intro st
    simp [run_msgs]
  | cons m rest ih =>
    intro st
    cases m with
    | getheaders locator hashStop =>
      have hreq : req_count R.hash_int (InMsg.getheaders locator hashStop :: rest)
          = req_count R.hash_int rest := by
        simp [req_count, inv_stream]
      rw [hreq]
      simp only [run_msgs, step_msg]
      cases hoh : on_getheaders chain stale_blocks max_height st.served_stale_blocks
          locator hashStop with
      | none =>
        dsimp only
        omega
      | some hs =>
        dsimp only
        refine le_trans (ih _) ?_
        simp [List.countP_append]
    | getdata invs =>
      have hreq : req_count R.hash_int (InMsg.getdata invs :: rest)
          = invs.countP
              (fun iv => (iv.1 &&& MSG_TYPE_MASK) == MSG_BLOCK && iv.2 == R.hash_int)
            + req_count R.hash_int rest := by
        simp [req_count, inv_stream, List.countP_append]
      rw [hreq]
      have hcount := @on_getdata_block_send_count_le chain stale_blocks max_height R hchain huniq invs st
      simp only [run_msgs, step_msg]
      cases hgd : on_getdata chain stale_blocks max_height st invs with
      | mk st' e =>
        rw [hgd] at hcount
        dsimp only at hcount
        cases e with
        | true =>
          dsimp only
          omega
        | false =>
          dsimp only
          refine le_trans (ih st') ?_
          omega

lemma run_msgs_served_eq {chain : List CBlock} {stale_blocks : List StaleBlockRecord}
    {max_height : Option Nat} :
    ∀ msgs st,
    (run_msgs chain stale_blocks max_height st msgs).2 = false →
    (run_msgs chain stale_blocks max_height st msgs).1.served_blocks
      = st.served_blocks ++ gd_stream_entries chain stale_blocks (inv_stream msgs) := by
  intro msgs
  induction msgs with
  | nil =>
    intro st _
    simp [run_msgs, inv_stream, gd_stream_entries]
  | cons m rest ih =>
    intro st herr
    cases m with
    | getheaders locator hashStop =>
      simp only [run_msgs, step_msg] at herr ⊢
      cases hoh : on_getheaders chain stale_blocks max_height st.served_stale_blocks
          locator hashStop with
      | none =>
        rw [hoh] at herr
        dsimp only at herr
        cases herr
      | some hs =>
        rw [hoh] at herr
        dsimp only at herr ⊢
        rw [ih _ herr]
        simp [inv_stream]
    | getdata invs =>
      simp only [run_msgs, step_msg] at herr ⊢
      cases hgd : on_getdata chain stale_blocks max_height st invs with
      | mk st' e =>
        rw [hgd] at herr
        have hserved := @on_getdata_served_eq chain stale_blocks max_height invs st
        rw [hgd] at hserved
        cases e with
        | true =>
          dsimp only at herr
          cases herr
        | false =>
          dsimp only at herr ⊢
          rw [ih _ herr]
          rw [hserved rfl]
          simp [inv_stream, gd_stream_entries_append]

lemma mem_gd_stream_entries {chain : List CBlock} {stale_blocks : List StaleBlockRecord}
    {e : ServedEntry} :
    ∀ invs, e ∈ gd_stream_entries chain stale_blocks invs →
    ∃ iv ∈ invs, e ∈ gd_entry chain stale_blocks iv := by
  intro invs
  induction invs with
  | nil =>
    intro h
    simp [gd_stream_entries] at h
  | cons iv rest ih =>
    intro h
    simp only [gd_stream_entries] at h
    rw [List.mem_append] at h
    rcases h with h | h
    · exact ⟨iv, List.mem_cons_self iv rest, h⟩
    · obtain ⟨iv2, hiv2, he⟩ := ih h
      exact ⟨iv2, List.mem_cons_of_mem iv hiv2, he⟩

lemma gd_entry_active_inv {chain : List CBlock} {stale_blocks : List StaleBlockRecord}
    {iv : Nat × Nat} {oh : Option Nat} {aH : Nat} :
    (⟨ServedKind.active, oh, aH⟩ : ServedEntry) ∈ gd_entry chain stale_blocks iv →
    (iv.1 &&& MSG_TYPE_MASK) = MSG_BLOCK ∧ iv.2 = aH := by
  intro h
  unfold gd_entry at h
  split at h
  · simp at h
  · rename_i htype
    have htype2 : (iv.1 &&& MSG_TYPE_MASK) = MSG_BLOCK := by
      have : ((iv.1 &&& MSG_TYPE_MASK) == MSG_BLOCK) = true := by
        simpa [bne] using htype
      exact beq_iff_eq.mp this
    split at h
    · rw [List.mem_singleton] at h
      simp at h
    · rw [List.mem_singleton] at h
      have := ServedEntry.mk.injEq ServedKind.active oh aH ServedKind.active
        (active_height_of chain iv.2) iv.2
      simp only [this] at h
      exact ⟨htype2, h.2.2.symm⟩

lemma except_map_isOk {ε α β : Type} (g : α → β) (e : Except ε α) :
    (Except.map g e).isOk = e.isOk := by
  cases e <;> rfl

lemma load_loop_isOk_iff :
    ∀ files : List StaleFile,
    ((load_stale_blocks_loop files).isOk = false
      ↔ ∃ f ∈ files, ∃ ht hx, stale_block_file_match f.name = some (ht, hx)
          ∧ f.block.hash_int ≠ hx) := by
  intro files
  induction files with
  | nil =>
    simp [load_stale_blocks_loop, Except.isOk, Except.toBool]
  | cons f rest ih =>
    simp only [load_stale_blocks_loop]
    cases hp : stale_block_file_match f.name with
    | none =>
      rw [ih]
      constructor
      · intro hex
        obtain ⟨f2, hf2, hx⟩ := hex
        exact ⟨f2, List.mem_cons_of_mem f hf2, hx⟩
      · intro hex
        obtain ⟨f2, hf2, ht0, hx0, hp0, hne0⟩ := hex
        rw [List.mem_cons] at hf2
        rcases hf2 with hf2 | hf2
        · subst hf2
          rw [hp] at hp0
          cases hp0
        · exact ⟨f2, hf2, ht0, hx0, hp0, hne0⟩
    | some pr =>
      obtain ⟨ht0, hx0⟩ := pr
      dsimp only
      by_cases hmis : (f.block.hash_int != hx0) = true
      · rw [if_pos hmis]
        simp only [Except.isOk]
        constructor
        · intro _
          refine ⟨f, List.mem_cons_self f rest, ht0, hx0, hp, ?_⟩
          simpa [bne] using hmis
        · intro _
          rfl
      · rw [if_neg hmis]
        have heq : f.block.hash_int = hx0 := by
          simpa [bne] using hmis
        cases hrest : load_stale_blocks_loop rest with
        | error e =>
          dsimp only
          simp only [Except.isOk]
          rw [hrest] at ih
          simp only [Except.isOk] at ih
          constructor
          · intro _
            obtain ⟨f2, hf2, hx⟩ := ih.mp rfl
            exact ⟨f2, List.mem_cons_of_mem f hf2, hx⟩
          · intro _
            rfl
        | ok recs =>
          dsimp only
          simp only [Except.isOk]
          rw [hrest] at ih
          simp only [Except.isOk] at ih
          constructor
          · intro hfalse
            cases hfalse
          · intro hex
            obtain ⟨f2, hf2, ht2, hx2, hp2, hne2⟩ := hex
            rw [List.mem_cons] at hf2
            rcases hf2 with hf2 | hf2
            · subst hf2
              rw [hp] at hp2
              injection hp2 with hp3
              injection hp3 with hp4 hp5
              subst hp4
              subst hp5
              exact absurd heq hne2
            · have : (Except.ok recs : Except String (List StaleBlockRecord)).isOk = false :=
                ih.mpr ⟨f2, hf2, ht2, hx2, hp2, hne2⟩
              simpa [Except.isOk] using this

lemma load_loop_all_skip :
    ∀ files : List StaleFile,
    (∀ f ∈ files, stale_block_file_match f.name = none) →
    load_stale_blocks_loop files = Except.ok [] := by
  intro files
  induction files with
  | nil =>
    intro _
    rfl
  | cons f rest ih =>
    intro hall
    simp only [load_stale_blocks_loop]
    rw [hall f (List.mem_cons_self f rest)]
    exact ih (fun f2 hf2 => hall f2 (List.mem_cons_of_mem f hf2))

lemma effective_tip_le_max {chain : List CBlock} {M : Nat} :
    effective_tip chain (some M) ≤ M := by
  simp [effective_tip]

lemma effective_tip_le_tip {chain : List CBlock} {max_height : Option Nat} :
    effective_tip chain max_height ≤ tip_height chain := by
  cases max_height <;> simp [effective_tip]

/-- Claim C2: for every GetHeaders request, whenever the reply batch contains
an injected stale header, the batch stops at it: the stale header is the last
element, everything before it is a real active-chain header, the record is
unserved, and its `prev_hash_int` equals the hash chosen at the previous step
(the fork hash when the stale header opens the batch). -/
theorem stale_reorg_C2 (chain : List CBlock) (stale_blocks : List StaleBlockRecord)
    (max_height : Option Nat) (served : List Nat) (locator_hashes : List Nat)
    (hash_stop : Nat) (hs : List HeaderOut) (fork_hash fork_height : Nat)
    (s : StaleBlockRecord)
    (hfork : find_active_fork chain locator_hashes = some (fork_hash, fork_height))
    (hrun : on_getheaders chain stale_blocks max_height served locator_hashes hash_stop
      = some hs)
    (hmem : HeaderOut.stale s ∈ hs) :
    ∃ pre, hs = pre ++ [HeaderOut.stale s]
      ∧ (∀ x ∈ pre, ∃ hh b, x = HeaderOut.active hh b)
      ∧ served.contains s.hash_int = false
      ∧ s.prev_hash_int = last_hash pre fork_hash := by
  unfold on_getheaders at hrun
  rw [hfork] at hrun
  dsimp only at hrun
  split at hrun
  · injection hrun with h_eq
    subst h_eq
    simp at hmem
  · obtain ⟨pre, h1, h2, hcand⟩ :=
      headers_loop_stale_mem _ _ _ _ hs s hrun hmem
    have hspec := next_stale_candidate_spec hcand
    exact ⟨pre, h1, h2, hspec.2.2.1, hspec.2.1⟩

/-- Witness for C2: on a two-block chain with one stale record forking off
genesis, a GetHeaders for the genesis locator yields exactly the injected
stale header as the terminal batch element. -/
theorem stale_reorg_C2_witness :
    ∃ pre, [HeaderOut.stale s1Ex] = pre ++ [HeaderOut.stale s1Ex]
      ∧ (∀ x ∈ pre, ∃ hh b, x = HeaderOut.active hh b)
      ∧ List.contains [] s1Ex.hash_int = false
      ∧ s1Ex.prev_hash_int = last_hash pre 100 :=
  stale_reorg_C2 chainEx [s1Ex] none [] [100] 0 [HeaderOut.stale s1Ex] 100 0 s1Ex
    (by decide) (by decide) (by decide)

/-- Claim C10: when a GetHeaders request carries a non-zero `hashstop`, any
stale header injected into the reply has exactly that hash; candidates with
other hashes are never substituted. -/
theorem stale_reorg_C10 (chain : List CBlock) (stale_blocks : List StaleBlockRecord)
    (max_height : Option Nat) (served : List Nat) (locator_hashes : List Nat)
    (hash_stop : Nat) (hs : List HeaderOut) (s : StaleBlockRecord)
    (hstop : hash_stop ≠ 0)
    (hrun : on_getheaders chain stale_blocks max_height served locator_hashes hash_stop
      = some hs)
    (hmem : HeaderOut.stale s ∈ hs) :
    s.hash_int = hash_stop := by
  unfold on_getheaders at hrun
  cases hfork : find_active_fork chain locator_hashes with
  | none =>
    rw [hfork] at hrun
    cases hrun
  | some pr =>
    obtain ⟨fh, fht⟩ := pr
    rw [hfork] at hrun
    dsimp only at hrun
    split at hrun
    · injection hrun with h_eq
      subst h_eq
      simp at hmem
    · obtain ⟨pre, h1, h2, hcand⟩ :=
        headers_loop_stale_mem _ _ _ _ hs s hrun hmem
      rcases (next_stale_candidate_spec hcand).2.2.2.2 with h0 | h0
      · exact absurd h0 hstop
      · exact h0.symm

/-- Witness for C10: with `hashstop` equal to the stale record's own hash the
record is injected, and the theorem pins its hash to the `hashstop` value. -/
theorem stale_reorg_C10_witness : s1Ex.hash_int = 201 :=
  stale_reorg_C10 chainEx [s1Ex] none [] [100] 201 [HeaderOut.stale s1Ex] s1Ex
    (by decide) (by decide) (by decide)

/-- Claim C5 (amended): with `max_height = M` configured, GetHeaders never
produces a header above `M` (neither an active one nor an injected stale
one), and a request whose resolved fork point is at or above the effective
tip `min(tip, M)` receives an empty batch.  (GetData, by contrast, serves any
requested known block regardless of `M`; see the counterexample.) -/
theorem stale_reorg_C5_amended (chain : List CBlock) (stale_blocks : List StaleBlockRecord)
    (M : Nat) (served : List Nat) (locator_hashes : List Nat) (hash_stop : Nat)
    (hs : List HeaderOut)
    (hrun : on_getheaders chain stale_blocks (some M) served locator_hashes hash_stop
      = some hs) :
    (∀ x ∈ hs, headerHeight x ≤ M)
    ∧ (∀ fh fht, find_active_fork chain locator_hashes = some (fh, fht) →
        effective_tip chain (some M) ≤ fht → hs = []) := by
  unfold on_getheaders at hrun
  cases hfork : find_active_fork chain locator_hashes with
  | none =>
    rw [hfork] at hrun
    cases hrun
  | some pr =>
    obtain ⟨fh0, fht0⟩ := pr
    rw [hfork] at hrun
    dsimp only at hrun
    constructor
    · split at hrun
      · injection hrun with h_eq
        subst h_eq
        intro x hx
        simp at hx
      · intro x hx
        exact headers_loop_height_le effective_tip_le_max _ _ _ _ _ hrun x hx
    · intro fh fht hf hle
      injection hf with hpair
      rw [Prod.mk.injEq] at hpair
      obtain ⟨rfl, rfl⟩ := hpair
      split at hrun
      · injection hrun with h_eq
        exact h_eq.symm
      · rename_i hgt
        exfalso
        omega

/-- Witness for C5 (amended): with `max_height = 1` on the two-block chain, a
GetHeaders from genesis returns only the height-1 header, and a fork already
at the effective tip yields the empty batch. -/
theorem stale_reorg_C5_witness :
    ((∀ x ∈ [HeaderOut.active 1 b1Ex], headerHeight x ≤ 1)
      ∧ (∀ fh fht, find_active_fork chainEx [100] = some (fh, fht) →
          effective_tip chainEx (some 1) ≤ fht → [HeaderOut.active 1 b1Ex] = []))
    ∧ ((∀ x ∈ ([] : List HeaderOut), headerHeight x ≤ 0)
      ∧ (∀ fh fht, find_active_fork chainEx [100] = some (fh, fht) →
          effective_tip chainEx (some 0) ≤ fht → ([] : List HeaderOut) = [])) :=
  ⟨stale_reorg_C5_amended chainEx [] 1 [] [100] 0 [HeaderOut.active 1 b1Ex] (by decide),
   stale_reorg_C5_amended chainEx [] 0 [] [100] 0 [] (by decide)⟩

/-- Counterexample to C5 as stated: with `max_height = 0`, a GetData request
for a catalog stale record at height 5 is still answered — the proxy
transmits the stale block and appends the height-5 entry to the ledger, so a
block at height strictly greater than `M` is produced. -/
theorem stale_reorg_C5_counterexample :
    (run_msgs chainEx [s5Ex] (some 0) initState
        [InMsg.getdata [(2, 205)]]).1.served_blocks
      = [⟨ServedKind.stale, some 5, 205⟩]
    ∧ (run_msgs chainEx [s5Ex] (some 0) initState
        [InMsg.getdata [(2, 205)]]).1.sent
      = [OutMsg.blockMsg ⟨100, 205⟩]
    ∧ 5 > 0 := by
  decide

/-- Claim C7: fork-point resolution scans the locator hashes in the supplied
order and picks the first one resolvable on the active chain; when none
resolves it falls back to the genesis hash at height 0. -/
theorem stale_reorg_C7 :
    (∀ (chain : List CBlock) (l1 : List Nat) (h ht : Nat) (l2 : List Nat),
      (∀ x ∈ l1, active_height_of chain x = none) →
      active_height_of chain h = some ht →
      find_active_fork chain (l1 ++ h :: l2) = some (h, ht))
    ∧ (∀ (chain : List CBlock) (locator : List Nat) (g : Nat),
      (∀ x ∈ locator, active_height_of chain x = none) →
      get_block_hash chain 0 = some g →
      find_active_fork chain locator = some (g, 0)) := by
  constructor
  · intro chain l1 h ht l2 hnone hsome
    induction l1 with
    | nil =>
      simp only [List.nil_append, find_active_fork]
      rw [hsome]
    | cons a rest ih =>
      have ha := hnone a (List.mem_cons_self a rest)
      simp only [List.cons_append, find_active_fork]
      rw [ha]
      exact ih (fun x hx => hnone x (List.mem_cons_of_mem a hx))
  · intro chain locator g hnone hg
    induction locator with
    | nil =>
      simp only [find_active_fork]
      rw [hg]
      rfl
    | cons a rest ih =>
      have ha := hnone a (List.mem_cons_self a rest)
      simp only [find_active_fork]
      rw [ha]
      exact ih (fun x hx => hnone x (List.mem_cons_of_mem a hx))

/-- Witness for C7: on the two-block chain, locator `[999, 101]` resolves to
the height-1 block after skipping the unknown hash, and the all-unknown
locator `[999]` falls back to genesis. -/
theorem stale_reorg_C7_witness :
    find_active_fork chainEx [999, 101] = some (101, 1)
    ∧ find_active_fork chainEx [999] = some (100, 0) :=
  ⟨stale_reorg_C7.1 chainEx [999] 101 1 [] (by decide) (by decide),
   stale_reorg_C7.2 chainEx [999] 100 (by decide) (by decide)⟩

/-- Claim C4 (amended): a block-type GetData entry whose hash is neither a
catalog stale hash nor known to the upstream is not silently ignored: the
proxy appends `(active, None, hash)` to the ledger and the subsequent
`get_block` call raises, aborting the handler so that the remaining entries
are not processed. -/
theorem stale_reorg_C4_amended (chain : List CBlock) (stale_blocks : List StaleBlockRecord)
    (max_height : Option Nat) (st : ProxyState) (t h : Nat) (rest : List (Nat × Nat))
    (htype : (t &&& MSG_TYPE_MASK) = MSG_BLOCK)
    (hsb : stale_by_hash stale_blocks h = none)
    (hunknown : ∀ b ∈ chain, b.hash_int ≠ h) :
    on_getdata chain stale_blocks max_height st ((t, h) :: rest)
      = ({ st with
            getdata_requests := st.getdata_requests ++ [h]
            served_blocks := st.served_blocks ++ [⟨ServedKind.active, none, h⟩] }, true) := by
  have hah : active_height_of chain h = none := active_height_of_eq_none hunknown
  have hbl : block_of_hash chain h = none := block_of_hash_eq_none hunknown
  have htype2 : ((t &&& MSG_TYPE_MASK) != MSG_BLOCK) = false := by
    simp [bne, htype]
  simp only [on_getdata]
  rw [if_neg (by simp [htype2])]
  rw [hsb]
  dsimp only
  rw [hah, hbl]

/-- Counterexample to C4 as stated: requesting the unknown hash 999 followed
by the known genesis hash alters the ledger with an `(active, None, 999)`
entry, raises (error flag `true`), and never processes the second entry —
rather than silently ignoring the unknown hash and continuing. -/
theorem stale_reorg_C4_counterexample :
    on_getdata chainEx [] none initState [(2, 999), (2, 100)]
      = (⟨[], [999], [⟨ServedKind.active, none, 999⟩], []⟩, true)
    ∧ (⟨ServedKind.active, none, 999⟩ : ServedEntry)
        ∈ (on_getdata chainEx [] none initState [(2, 999), (2, 100)]).1.served_blocks
    ∧ ∀ oh, (⟨ServedKind.active, oh, 100⟩ : ServedEntry)
        ∉ (on_getdata chainEx [] none initState [(2, 999), (2, 100)]).1.served_blocks := by
  refine ⟨by decide, by decide, ?_⟩
  intro oh
  have hres : (on_getdata chainEx [] none initState [(2, 999), (2, 100)]).1.served_blocks
      = [⟨ServedKind.active, none, 999⟩] := by decide
  rw [hres]
  simp

/-- Witness for C4 (amended): the unknown hash 999 on the two-block chain
exercises the amended behavior at a concrete input. -/
theorem stale_reorg_C4_witness :
    on_getdata chainEx [] none initState [(2, 999)]
      = ({ initState with
            getdata_requests := initState.getdata_requests ++ [999]
            served_blocks := initState.served_blocks
              ++ [⟨ServedKind.active, none, 999⟩] }, true) :=
  stale_reorg_C4_amended chainEx [] none initState 2 999 [] (by decide) (by decide)
    (by decide)

/-- Claim C6: a block-type GetData entry matching an unserved stale record
marks the record served, appends `(stale, height, hash)` to the ledger,
transmits the stored raw block, and then announces the active block at
`height + 1` via an unsolicited inventory message exactly when that height is
within the effective tip. -/
theorem stale_reorg_C6 (chain : List CBlock) (stale_blocks : List StaleBlockRecord)
    (max_height : Option Nat) (st : ProxyState) (t h : Nat) (R : StaleBlockRecord)
    (htype : (t &&& MSG_TYPE_MASK) = MSG_BLOCK)
    (hsb : stale_by_hash stale_blocks h = some R)
    (hunserved : R.hash_int ∉ st.served_stale_blocks)
    (hne : chain ≠ []) :
    (on_getdata chain stale_blocks max_height st [(t, h)]).2 = false
    ∧ (on_getdata chain stale_blocks max_height st [(t, h)]).1.served_stale_blocks
        = R.hash_int :: st.served_stale_blocks
    ∧ (on_getdata chain stale_blocks max_height st [(t, h)]).1.served_blocks
        = st.served_blocks ++ [⟨ServedKind.stale, some R.height, R.hash_int⟩]
    ∧ (R.height + 1 ≤ effective_tip chain max_height →
        ∃ nh, get_block_hash chain (R.height + 1) = some nh
          ∧ (on_getdata chain stale_blocks max_height st [(t, h)]).1.sent
              = st.sent ++ [OutMsg.blockMsg R.block, OutMsg.invMsg nh])
    ∧ (effective_tip chain max_height < R.height + 1 →
        (on_getdata chain stale_blocks max_height st [(t, h)]).1.sent
          = st.sent ++ [OutMsg.blockMsg R.block]) := by
  have htype2 : ((t &&& MSG_TYPE_MASK) != MSG_BLOCK) = false := by
    simp [bne, htype]
  have hins : (st.served_stale_blocks).insert R.hash_int
      = R.hash_int :: st.served_stale_blocks := List.insert_of_not_mem hunserved
  by_cases htip : R.height + 1 ≤ effective_tip chain max_height
  · have hlt : R.height + 1 < chain.length := by
      have h1 : effective_tip chain max_height ≤ tip_height chain := effective_tip_le_tip
      have h2 : chain.length ≠ 0 := by
        simpa [List.length_eq_zero] using hne
      unfold tip_height at h1
      omega
    have hgbh : get_block_hash chain (R.height + 1)
        = some ((chain.get ⟨R.height + 1, hlt⟩).hash_int) := by
      unfold get_block_hash
      rw [List.get?_eq_get hlt]
      rfl
    have hres : on_getdata chain stale_blocks max_height st [(t, h)]
        = ({ st with
              served_stale_blocks := R.hash_int :: st.served_stale_blocks
              getdata_requests := st.getdata_requests ++ [h]
              served_blocks := st.served_blocks
                ++ [⟨ServedKind.stale, some R.height, R.hash_int⟩]
              sent := st.sent ++ [OutMsg.blockMsg R.block]
                ++ [OutMsg.invMsg ((chain.get ⟨R.height + 1, hlt⟩).hash_int)] }, false) := by
      simp only [on_getdata]
      rw [if_neg (by simp [htype2])]
      rw [hsb]
      dsimp only
      rw [if_pos htip, hgbh]
      dsimp only
      rw [hins]
    rw [hres]
    refine ⟨rfl, rfl, rfl, ?_, ?_⟩
    · intro _
      refine ⟨(chain.get ⟨R.height + 1, hlt⟩).hash_int, hgbh, ?_⟩
      simp
    · intro hcontra
      omega
  · have hres : on_getdata chain stale_blocks max_height st [(t, h)]
        = ({ st with
              served_stale_blocks := R.hash_int :: st.served_stale_blocks
              getdata_requests := st.getdata_requests ++ [h]
              served_blocks := st.served_blocks
                ++ [⟨ServedKind.stale, some R.height, R.hash_int⟩]
              sent := st.sent ++ [OutMsg.blockMsg R.block] }, false) := by
      simp only [on_getdata]
      rw [if_neg (by simp [htype2])]
      rw [hsb]
      dsimp only
      rw [if_neg htip]
      rw [hins]
    rw [hres]
    refine ⟨rfl, rfl, rfl, ?_, ?_⟩
    · intro hcontra
      exact absurd hcontra htip
    · intro _
      rfl

/-- Witness for C6: serving the stale record at height 1 on the three-block
chain transmits its block and announces the active block at height 2. -/
theorem stale_reorg_C6_witness :
    (on_getdata chain3Ex [s1Ex] none initState [(2, 201)]).2 = false
    ∧ (on_getdata chain3Ex [s1Ex] none initState [(2, 201)]).1.served_stale_blocks
        = s1Ex.hash_int :: initState.served_stale_blocks
    ∧ (on_getdata chain3Ex [s1Ex] none initState [(2, 201)]).1.served_blocks
        = initState.served_blocks ++ [⟨ServedKind.stale, some s1Ex.height, s1Ex.hash_int⟩]
    ∧ (s1Ex.height + 1 ≤ effective_tip chain3Ex none →
        ∃ nh, get_block_hash chain3Ex (s1Ex.height + 1) = some nh
          ∧ (on_getdata chain3Ex [s1Ex] none initState [(2, 201)]).1.sent
              = initState.sent ++ [OutMsg.blockMsg s1Ex.block, OutMsg.invMsg nh])
    ∧ (effective_tip chain3Ex none < s1Ex.height + 1 →
        (on_getdata chain3Ex [s1Ex] none initState [(2, 201)]).1.sent
          = initState.sent ++ [OutMsg.blockMsg s1Ex.block]) :=
  stale_reorg_C6 chain3Ex [s1Ex] none initState 2 201 s1Ex (by decide) (by decide)
    (by decide) (by decide)

/-- Claim C9 (amended): `get_active_height` answers repeated queries for the
same hash from its cache (regardless of the upstream's later state), and any
`getblockheader` failure — including upstream unavailability — is swallowed
and cached as a negative result rather than propagated; `get_block`, in
contrast, propagates an upstream error and caches nothing for it. -/
theorem stale_reorg_C9_amended (rpc : RpcUpstream) (st : RPCChainViewState) (h : Nat)
    (v : Option Nat) (st2 : RPCChainViewState)
    (hcall : get_active_height rpc st h = (v, st2)) :
    (∀ rpc2, get_active_height rpc2 st2 h = (v, st2))
    ∧ (∀ e, rpc.getblockheader h = Except.error e →
        lookup_cache st.active_height_by_hash h = none →
        v = none ∧ lookup_cache st2.active_height_by_hash h = some none)
    ∧ (∀ e, rpc.getblock h = Except.error e →
        lookup_cache st.block_by_hash h = none →
        get_block_view rpc st h = (Except.error e, st)) := by
  refine ⟨?_, ?_, ?_⟩
  · intro rpc2
    unfold get_active_height at hcall ⊢
    cases hl : lookup_cache st.active_height_by_hash h with
    | some v0 =>
      rw [hl] at hcall
      dsimp only at hcall
      injection hcall with h1 h2
      subst h1
      subst h2
      rw [hl]
    | none =>
      rw [hl] at hcall
      dsimp only at hcall
      cases hr : rpc.getblockheader h with
      | error e =>
        rw [hr] at hcall
        dsimp only at hcall
        injection hcall with h1 h2
        subst h1
        subst h2
        dsimp only
        rw [lookup_cache_cons]
      | ok info =>
        rw [hr] at hcall
        dsimp only at hcall
        injection hcall with h1 h2
        subst h1
        subst h2
        dsimp only
        rw [lookup_cache_cons]
  · intro e he hcac
    unfold get_active_height at hcall
    rw [hcac, he] at hcall
    dsimp only at hcall
    injection hcall with h1 h2
    subst h1
    subst h2
    exact ⟨rfl, lookup_cache_cons _ _ _⟩
  · intro e he hcac
    unfold get_block_view
    rw [hcac, he]

/-- Counterexample to C9 as stated: when the upstream is unreachable,
`get_active_height` does not propagate a failure — it returns `none` and
caches `(hash, none)` as a negative result, so a later call with a healthy
upstream is still answered negatively from the poisoned cache. -/
theorem stale_reorg_C9_counterexample :
    get_active_height rpcDownEx emptyView 5 = (none, ⟨[(5, none)], []⟩)
    ∧ (get_active_height rpcUpEx ⟨[(5, none)], []⟩ 5).1 = none := by
  exact ⟨rfl, rfl⟩

/-- Witness for C9 (amended): the amended theorem applied to the unreachable
upstream at hash 5 and the empty cache. -/
theorem stale_reorg_C9_witness :
    (∀ rpc2, get_active_height rpc2 ⟨[(5, none)], []⟩ 5 = (none, ⟨[(5, none)], []⟩))
    ∧ (∀ e, rpcDownEx.getblockheader 5 = Except.error e →
        lookup_cache emptyView.active_height_by_hash 5 = none →
        (none : Option Nat) = none
          ∧ lookup_cache (⟨[(5, none)], []⟩ : RPCChainViewState).active_height_by_hash 5
              = some none)
    ∧ (∀ e, rpcDownEx.getblock 5 = Except.error e →
        lookup_cache emptyView.block_by_hash 5 = none →
        get_block_view rpcDownEx emptyView 5 = (Except.error e, emptyView)) :=
  stale_reorg_C9_amended rpcDownEx emptyView 5 none ⟨[(5, none)], []⟩ rfl

/-- Claim C1 (amended): a stale record's ledger entry appears at most once and
its raw block is transmitted at most once provided the peer requests the
record's hash at most once across all GetData messages; the engine itself
does not deduplicate repeated GetData requests (see the counterexample), its
served-set only stops repeated header injection. -/
theorem stale_reorg_C1_amended (chain : List CBlock) (stale_blocks : List StaleBlockRecord)
    (max_height : Option Nat) (msgs : List InMsg) (R : StaleBlockRecord)
    (hreq : req_count R.hash_int msgs ≤ 1)
    (hchain : ∀ b ∈ chain, b ≠ R.block)
    (huniq : ∀ s ∈ stale_blocks, s.block = R.block → s.hash_int = R.hash_int) :
    ((run_msgs chain stale_blocks max_height initState msgs).1.served_blocks.countP
        (fun e => e.kind == ServedKind.stale && e.hash == R.hash_int)) ≤ 1
    ∧ ((run_msgs chain stale_blocks max_height initState msgs).1.sent.countP
        (fun m => m == OutMsg.blockMsg R.block)) ≤ 1 := by
  constructor
  · have hle := @run_msgs_stale_count_le chain stale_blocks max_height R.hash_int msgs initState
    have h0 : initState.served_blocks.countP
        (fun e => e.kind == ServedKind.stale && e.hash == R.hash_int) = 0 := rfl
    rw [h0] at hle
    omega
  · have hle := @run_msgs_block_send_count_le chain stale_blocks max_height R hchain huniq
      msgs initState
    have h0 : initState.sent.countP (fun m => m == OutMsg.blockMsg R.block) = 0 := rfl
    rw [h0] at hle
    omega

/-- Witness for C1 (amended): one request for the stale hash on the two-block
chain yields exactly one ledger entry and one transmission, within the
bound. -/
theorem stale_reorg_C1_witness :
    ((run_msgs chainEx [s1Ex] none initState [InMsg.getdata [(2, 201)]]).1.served_blocks.countP
        (fun e => e.kind == ServedKind.stale && e.hash == s1Ex.hash_int)) ≤ 1
    ∧ ((run_msgs chainEx [s1Ex] none initState [InMsg.getdata [(2, 201)]]).1.sent.countP
        (fun m => m == OutMsg.blockMsg s1Ex.block)) ≤ 1 :=
  stale_reorg_C1_amended chainEx [s1Ex] none [InMsg.getdata [(2, 201)]] s1Ex
    (by decide) (by decide) (by decide)

/-- Counterexample to C1 as stated: two GetData requests for the same stale
hash make the proxy serve the record twice — the `(stale, 1, 201)` ledger
entry appears twice and the raw block is transmitted twice in one process
lifetime. -/
theorem stale_reorg_C1_counterexample :
    (run_msgs chainEx [s1Ex] none initState
        [InMsg.getdata [(2, 201), (2, 201)]]).1.served_blocks
      = [⟨ServedKind.stale, some 1, 201⟩, ⟨ServedKind.stale, some 1, 201⟩]
    ∧ (run_msgs chainEx [s1Ex] none initState
        [InMsg.getdata [(2, 201), (2, 201)]]).1.served_blocks.countP
        (fun e => e.kind == ServedKind.stale && e.hash == 201) = 2
    ∧ (run_msgs chainEx [s1Ex] none initState
        [InMsg.getdata [(2, 201), (2, 201)]]).1.sent
      = [OutMsg.blockMsg ⟨100, 201⟩, OutMsg.blockMsg ⟨100, 201⟩] := by
  decide

/-- Claim C3 (amended): ledger entries are appended in request-processing
order, so when the first block-type GetData entry for a stale hash is
processed before every block-type GetData entry for the active counterpart's
hash (and the run raises no error), the stale ledger entry sits strictly
before every `(active, _, aH)` entry; the engine does not enforce this order
itself (see the counterexample). -/
theorem stale_reorg_C3_amended (chain : List CBlock) (stale_blocks : List StaleBlockRecord)
    (max_height : Option Nat) (msgs : List InMsg) (R : StaleBlockRecord)
    (aH : Nat) (l1 l2 : List (Nat × Nat)) (t : Nat)
    (hok : (run_msgs chain stale_blocks max_height initState msgs).2 = false)
    (hsplit : inv_stream msgs = l1 ++ (t, R.hash_int) :: l2)
    (htype : (t &&& MSG_TYPE_MASK) = MSG_BLOCK)
    (hsb : stale_by_hash stale_blocks R.hash_int = some R)
    (hbefore : ∀ iv ∈ l1, ¬((iv.1 &&& MSG_TYPE_MASK) = MSG_BLOCK ∧ iv.2 = aH)) :
    ∃ A B, (run_msgs chain stale_blocks max_height initState msgs).1.served_blocks
        = A ++ ⟨ServedKind.stale, some R.height, R.hash_int⟩ :: B
      ∧ ∀ oh, (⟨ServedKind.active, oh, aH⟩ : ServedEntry) ∉ A := by
  have hserved := run_msgs_served_eq msgs initState hok
  rw [hsplit, gd_stream_entries_append] at hserved
  have hentry : gd_entry chain stale_blocks (t, R.hash_int)
      = [⟨ServedKind.stale, some R.height, R.hash_int⟩] := by
    unfold gd_entry
    have htype2 : ((t &&& MSG_TYPE_MASK) != MSG_BLOCK) = false := by
      simp [bne, htype]
    rw [if_neg (by simp [htype2])]
    dsimp only
    rw [hsb]
  refine ⟨gd_stream_entries chain stale_blocks l1,
    gd_stream_entries chain stale_blocks l2, ?_, ?_⟩
  · rw [hserved]
    simp only [gd_stream_entries, hentry, initState]
    simp
  · intro oh hmem
    obtain ⟨iv, hiv, he⟩ := mem_gd_stream_entries l1 hmem
    exact hbefore iv hiv ⟨(gd_entry_active_inv he).1, (gd_entry_active_inv he).2⟩

/-- Witness for C3 (amended): requesting the stale block before the active
block in one GetData message places the stale entry first. -/
theorem stale_reorg_C3_witness :
    ∃ A B, (run_msgs chainEx [s1Ex] none initState
        [InMsg.getdata [(2, 201), (2, 101)]]).1.served_blocks
        = A ++ ⟨ServedKind.stale, some s1Ex.height, s1Ex.hash_int⟩ :: B
      ∧ ∀ oh, (⟨ServedKind.active, oh, 101⟩ : ServedEntry) ∉ A :=
  stale_reorg_C3_amended chainEx [s1Ex] none [InMsg.getdata [(2, 201), (2, 101)]] s1Ex
    101 [] [(2, 101)] 2 (by decide) (by decide) (by decide) (by decide)
    (by intro iv hiv; simp at hiv)

/-- Counterexample to C3 as stated: a peer that requests the active block at
height 1 before the stale block at height 1 obtains a ledger in which the
active entry (position 0) precedes the stale entry (position 1), violating
the claimed ordering invariant. -/
theorem stale_reorg_C3_counterexample :
    (run_msgs chainEx [s1Ex] none initState
        [InMsg.getdata [(2, 101)], InMsg.getdata [(2, 201)]]).1.served_blocks
      = [⟨ServedKind.active, some 1, 101⟩, ⟨ServedKind.stale, some 1, 201⟩]
    ∧ (run_msgs chainEx [s1Ex] none initState
        [InMsg.getdata [(2, 101)], InMsg.getdata [(2, 201)]]).1.served_blocks.findIdx
        (fun e => e.kind == ServedKind.stale && e.hash == 201) = 1
    ∧ (run_msgs chainEx [s1Ex] none initState
        [InMsg.getdata [(2, 101)], InMsg.getdata [(2, 201)]]).1.served_blocks.findIdx
        (fun e => e.kind == ServedKind.active && e.hash == 101) = 0 := by
  decide

/-- Claim C8: loading a stale-block directory fails (yielding no usable
records) exactly when some file matching `<height>-<hash>.bin` deserializes
to a block whose recomputed hash differs from the filename-encoded hash —
one corrupt match poisons the whole load no matter how many other files are
valid — and a directory whose files all fail the name pattern loads cleanly
as the empty catalog. -/
theorem stale_reorg_C8 :
    (∀ files : List StaleFile,
      ((load_stale_blocks_from_dir files).isOk = false
        ↔ ∃ f ∈ files, ∃ ht hx, stale_block_file_match f.name = some (ht, hx)
            ∧ f.block.hash_int ≠ hx))
    ∧ (∀ files : List StaleFile,
      (∀ f ∈ files, stale_block_file_match f.name = none) →
      load_stale_blocks_from_dir files = Except.ok []) := by
  constructor
  · intro files
    unfold load_stale_blocks_from_dir
    rw [except_map_isOk]
    rw [load_loop_isOk_iff]
    constructor
    · rintro ⟨f, hf, hrest⟩
      exact ⟨f, (mem_sort_by files).mp hf, hrest⟩
    · rintro ⟨f, hf, hrest⟩
      exact ⟨f, (mem_sort_by files).mpr hf, hrest⟩
  · intro files hall
    unfold load_stale_blocks_from_dir
    rw [load_loop_all_skip _ (fun f hf => hall f ((mem_sort_by files).mp hf))]
    rfl

/-- Witness for C8: a directory with a single corrupt match fails to load,
and a directory holding only a non-matching file loads as the empty
catalog. -/
theorem stale_reorg_C8_witness :
    (load_stale_blocks_from_dir [fBadEx]).isOk = false
    ∧ load_stale_blocks_from_dir [fSkipEx] = Except.ok [] :=
  ⟨(stale_reorg_C8.1 [fBadEx]).mpr
      ⟨fBadEx, List.mem_singleton.mpr rfl, 2, 170, by decide, by decide⟩,
   stale_reorg_C8.2 [fSkipEx] (by decide)⟩
